import Mathlib

/-!
Verification of the Semblance llama JNI session layer
(`packages/mobile/android/app/src/main/cpp/semblance_llama_jni.cpp`)
against its natural-language design specification.

The C++ source is shallowly embedded in Lean.  Opaque engine references
(`llama_model *`, `llama_context *`) become abstract identifiers; the
behaviour of the external inference engine (llama.cpp) at its interface
boundary is a parameter of each embedded function; machine integers are
modelled as `Nat`/`Int` (token identifiers are non-negative vocabulary
indices, so they are `Nat`); `float`/`double` values entering order
comparisons are modelled as `Rat`.  The `while`/`for` loops of the source
are embedded with an explicit fuel argument equal to the loop bound that
the source enforces (`maxTokens` for the generation loop, the token-list
length for the chunked prefill loop), which makes every definition
structurally recursive and hence executable by the kernel.
-/

/-- One entry of an engine batch: the token id, its absolute sequence
position, and the compute-output ("logits") flag, exactly the data that
`llama_batch_add(batch, tok, pos, {0}, flag)` records for one slot. -/
structure BatchTok where
  tok : Nat
  pos : Nat
  logits : Bool
deriving Repr, DecidableEq

/-- Embeds the inner prefill loop body
`for (j = 0; j < n_eval; j++) llama_batch_add(batch, tokens[i+j], i+j, {0}, false);`:
builds the batch slots for one chunk, every slot with the compute-output
flag false and with consecutive absolute positions starting at `p`. -/
def mkChunk : List Nat → Nat → List BatchTok
  | [], _ => []
  | t :: ts, p => ⟨t, p, false⟩ :: mkChunk ts (p + 1)

/-- Embeds `batch.logits[batch.n_tokens - 1] = true;`: sets the
compute-output flag of the last slot of a batch. -/
def markLast : List BatchTok → List BatchTok
  | [] => []
  | [b] => [{ b with logits := true }]
  | b :: b' :: bs => b :: markLast (b' :: bs)

/-- Embeds the chunked prefill loop
`for (int i = 0; i < n_tokens; i += sc->n_batch) { ... llama_decode(sc->ctx, batch); }`
of `nativeGenerate` (lines 168-176) and `nativeEmbed` (lines 275-284):
each iteration takes the next `B` tokens (`n_eval = min(n_batch, n_tokens - i)`),
builds their batch with compute-output false, flips the flag of the batch's
last slot to true, and submits it.  The result is the list of submitted
batches in submission order.  The fuel argument bounds the number of
iterations; it is instantiated with the token count, which is an upper
bound on the iteration count whenever `B ≥ 1` (for `B = 0` the C loop
would never terminate; the load invariant `batch_capacity ≥ 1` excludes
that case, and the embedding then returns the truncated trace). -/
def prefillGo (B : Nat) : Nat → List Nat → Nat → List (List BatchTok)
  | 0, _, _ => []
  | _ + 1, [], _ => []
  | fuel + 1, t :: ts, start =>
      markLast (mkChunk ((t :: ts).take B) start) ::
        prefillGo B fuel ((t :: ts).drop B) (start + B)

/-- The whole batch prefill pipeline over a token sequence: the list of
decode submissions, in order, produced by the chunked prefill loop. -/
def prefillBatches (B : Nat) (toks : List Nat) (start : Nat) : List (List BatchTok) :=
  prefillGo B toks.length toks start

-- Basic facts about the chunk constructors.

theorem mkChunk_length (l : List Nat) (p : Nat) : (mkChunk l p).length = l.length := by
  induction l generalizing p with
  | nil => rfl
  | cons t ts ih => simp [mkChunk, ih]

theorem mkChunk_map_pos (l : List Nat) (p : Nat) :
    (mkChunk l p).map BatchTok.pos = List.range' p l.length := by
  induction l generalizing p with
  | nil => rfl
  | cons t ts ih => simp [mkChunk, List.range'_succ, ih]

theorem mkChunk_map_logits (l : List Nat) (p : Nat) :
    (mkChunk l p).map BatchTok.logits = List.replicate l.length false := by
  induction l generalizing p with
  | nil => rfl
  | cons t ts ih => simp [mkChunk, ih, List.replicate_succ]

theorem markLast_length (l : List BatchTok) : (markLast l).length = l.length := by
  induction l with
  | nil => rfl
  | cons b bs ih =>
    cases bs with
    | nil => rfl
    | cons b' bs' => simpa [markLast] using ih

theorem markLast_map_pos (l : List BatchTok) :
    (markLast l).map BatchTok.pos = l.map BatchTok.pos := by
  induction l with
  | nil => rfl
  | cons b bs ih =>
    cases bs with
    | nil => rfl
    | cons b' bs' => simpa [markLast] using ih

theorem markLast_map_logits (l : List BatchTok) (h : l ≠ []) :
    (markLast l).map BatchTok.logits = (l.map BatchTok.logits).dropLast ++ [true] := by
  induction l with
  | nil => exact absurd rfl h
  | cons b bs ih =>
    cases bs with
    | nil => rfl
    | cons b' bs' =>
      have ih' := ih (by simp)
      simp [markLast, ih', List.dropLast_cons_of_ne_nil]

theorem dropLast_replicate_false (n : Nat) :
    (List.replicate n false).dropLast = List.replicate (n - 1) false := by
  cases n with
  | zero => rfl
  | succ m => rw [List.replicate_succ' m false, List.dropLast_concat]; rfl

theorem prefillGo_count (B : Nat) (hB : 1 ≤ B) :
    ∀ fuel toks start, toks.length ≤ fuel →
      (prefillGo B fuel toks start).length = (toks.length + B - 1) / B := by
  intro fuel
  induction fuel with
  | zero =>
    intro toks start h
    have htoks : toks = [] := List.eq_nil_of_length_eq_zero (Nat.le_zero.mp h)
    subst htoks
    simp [prefillGo, Nat.div_eq_of_lt (show B - 1 < B by omega)]
  | succ fuel ih =>
    intro toks start h
    cases toks with
    | nil => simp [prefillGo, Nat.div_eq_of_lt (show B - 1 < B by omega)]
    | cons t ts =>
      simp only [List.length_cons] at h
      have hlen : ((t :: ts).drop B).length ≤ fuel := by
        simp only [List.length_drop, List.length_cons]
        omega
      have hrec := ih ((t :: ts).drop B) (start + B) hlen
      simp only [prefillGo, List.length_cons, hrec, List.length_drop]
      rcases le_or_lt B (ts.length + 1) with hle | hlt
      · have h1 : ts.length + 1 - B + B - 1 = ts.length := by omega
        have h2 : ts.length + 1 + B - 1 = ts.length + B := by omega
        rw [h1, h2, Nat.add_div_right _ (by omega)]
      · have h1 : ts.length + 1 - B + B - 1 = B - 1 := by omega
        have h2 : ts.length + 1 + B - 1 = ts.length + B := by omega
        rw [h1, h2, Nat.add_div_right _ (by omega),
          Nat.div_eq_of_lt (show B - 1 < B by omega),
          Nat.div_eq_of_lt (show ts.length < B by omega)]

theorem prefillGo_chunks (B : Nat) (hB : 1 ≤ B) :
    ∀ fuel toks start, toks.length ≤ fuel →
      ∀ c ∈ prefillGo B fuel toks start,
        ∃ l p, l ≠ [] ∧ l.length ≤ B ∧ c = markLast (mkChunk l p) := by
  intro fuel
  induction fuel with
  | zero =>
    intro toks start h c hc
    have htoks : toks = [] := List.eq_nil_of_length_eq_zero (Nat.le_zero.mp h)
    subst htoks
    simp [prefillGo] at hc
  | succ fuel ih =>
    intro toks start h c hc
    cases toks with
    | nil => simp [prefillGo] at hc
    | cons t ts =>
      simp only [List.length_cons] at h
      simp only [prefillGo, List.mem_cons] at hc
      rcases hc with hc | hc
      · refine ⟨(t :: ts).take B, start, ?_, ?_, hc⟩
        · cases B with
          | zero => omega
          | succ b => simp [List.take_succ_cons]
        · simp only [List.length_take]
          exact Nat.min_le_left B (t :: ts).length
      · exact ih ((t :: ts).drop B) (start + B)
          (by simp only [List.length_drop, List.length_cons]; omega) c hc

theorem prefillGo_positions (B : Nat) (hB : 1 ≤ B) :
    ∀ fuel toks start, toks.length ≤ fuel →
      (prefillGo B fuel toks start).flatten.map BatchTok.pos =
        List.range' start toks.length := by
  intro fuel
  induction fuel with
  | zero =>
    intro toks start h
    have htoks : toks = [] := List.eq_nil_of_length_eq_zero (Nat.le_zero.mp h)
    subst htoks
    simp [prefillGo]
  | succ fuel ih =>
    intro toks start h
    cases toks with
    | nil => simp [prefillGo]
    | cons t ts =>
      simp only [List.length_cons] at h
      have hrec := ih ((t :: ts).drop B) (start + B)
        (by simp only [List.length_drop, List.length_cons]; omega)
      simp only [prefillGo, List.flatten_cons, List.map_append, hrec,
        markLast_map_pos, mkChunk_map_pos, List.length_take, List.length_cons,
        List.length_drop]
      rcases le_or_lt (ts.length + 1) B with hle | hlt
      · have h1 : min B (ts.length + 1) = ts.length + 1 := by omega
        have h2 : ts.length + 1 - B = 0 := by omega
        simp [h1, h2]
      · have h1 : min B (ts.length + 1) = B := by omega
        have happ := List.range'_append start B (ts.length + 1 - B) 1
        simp only [Nat.one_mul, Nat.mul_one] at happ
        have h2 : ts.length + 1 - B + B = ts.length + 1 := by omega
        rw [h1, happ, h2]

/-- One entry of the candidate array built by the temperature path of
`nativeGenerate` (lines 201-204): `candidates[i] = {i, logits[i], 0.0f}`.
The probability field is never read by the code being modelled, so only
the id and the logit are kept; logits are modelled as rationals. -/
structure TokenData where
  id : Nat
  logit : Rat
deriving Repr, DecidableEq

/-- Embeds the candidate-building loop
`for (i = 0; i < n_vocab; i++) candidates[i] = {i, logits[i], 0.0f};`. -/
def buildCandidates : List Rat → Nat → List TokenData
  | [], _ => []
  | x :: xs, i => ⟨i, x⟩ :: buildCandidates xs (i + 1)

/-- Engine boundary model of `llama_sampler_apply` for the sampler created
by `llama_sampler_init_temp(t)`: the temperature sampler rescales each
candidate logit by the temperature (llama.cpp divides every entry's logit
by `t` in place) and does not reorder the candidate array; the array was
built with `sorted = false` and the temperature sampler performs no sort.
The spec describes this primitive as "rescale the distribution by
temperature". -/
def samplerApplyTemp (t : Rat) (cands : List TokenData) : List TokenData :=
  cands.map fun c => { c with logit := c.logit / t }

/-- Embeds the whole temperature branch of `nativeGenerate`
(lines 199-212): build the candidate array, apply the temperature sampler,
then `new_token = candidates_p.data[0].id;` — the id of the FIRST entry of
the (never reordered) candidate array.  `n_vocab ≥ 1` is assumed by the C
code (it indexes `data[0]`); for an empty vocabulary the default id 0 is
returned. -/
def sampleTemperatureToken (logits : List Rat) (t : Rat) : Nat :=
  (samplerApplyTemp t (buildCandidates logits 0)).headD ⟨0, 0⟩ |>.id

/-- Linear first-maximum scan: running maximum `m` attained at index
`best`, next index to examine is `i`; a later entry replaces the champion
only when strictly greater, so the lowest index among maximal values wins. -/
def scanMax : List Rat → Rat → Nat → Nat → Nat
  | [], _, best, _ => best
  | x :: xs, m, best, i =>
      if m < x then scanMax xs x i (i + 1) else scanMax xs m best (i + 1)

/-- Index of the first maximal element of a list of scores (0 on the empty
list). -/
def idxOfMax : List Rat → Nat
  | [] => 0
  | x :: xs => scanMax xs x 0 1

/-- The behaviour the claim describes for the temperature strategy
(stated from the spec's words, for comparison with
`sampleTemperatureToken`): rescale the distribution by the temperature and
select the resulting highest-scoring index. -/
def specTempArgmax (logits : List Rat) (t : Rat) : Nat :=
  idxOfMax (logits.map (· / t))

/-- Outcome of the `token_to_string` helper (lines 35-46), keeping the
buffer capacities it used visible: `fromStack n` means the first call
succeeded writing `n` bytes into the 256-byte stack buffer; `fromHeap cap n`
means the first call failed, a heap buffer of capacity `cap` was
allocated and the retry wrote `n` bytes; `emptyFallback` means the retry
also failed and the empty string was returned. -/
inductive PieceOutcome where
  | fromStack (n : Nat)
  | fromHeap (cap n : Nat)
  | emptyFallback
deriving Repr, DecidableEq

/-- Embeds `token_to_string` (lines 35-46).  The engine call
`llama_token_to_piece(model, token, buf, cap, 0, true)` is abstracted as
`engineCall : Nat → Int`, mapping the buffer capacity to the returned
count (non-negative: bytes written; negative: insufficient capacity, the
magnitude being the required size).  First try: `char buf[256]`.  On a
negative count `n`, a heap buffer of capacity `-n + 1` is allocated
(`std::vector<char> large_buf(static_cast<size_t>(-n) + 1)`) and the call
is retried once; a non-positive retry result yields `""`. -/
def token_to_string (engineCall : Nat → Int) : PieceOutcome :=
  let n := engineCall 256
  if n < 0 then
    let cap := (-n).toNat + 1
    let n2 := engineCall cap
    if 0 < n2 then .fromHeap cap n2.toNat else .emptyFallback
  else .fromStack n.toNat

/-- Outcome of the prompt-tokenization preamble shared by `nativeGenerate`
(lines 146-158) and `nativeEmbed` (lines 257-268): `firstTry cap n` means
the first call with capacity `cap = strlen(prompt) + 32` returned `n ≥ 0`
tokens; `retried cap n` means the first call returned a negative count,
the vector was resized to exactly `cap` (the magnitude) and the call
retried once, returning `n` — which the code then feeds to
`tokens.resize(n)` WITHOUT any check, so a still-negative `n` is recorded
as such (in C it would be cast to a huge `size_t`, not reported as a
`TokenizationError`). -/
inductive TokenizeOutcome where
  | firstTry (cap n : Nat)
  | retried (cap : Nat) (n : Int)
deriving Repr, DecidableEq

/-- Embeds the tokenize-with-retry preamble of `nativeGenerate` and
`nativeEmbed`.  `engineCall` abstracts
`llama_tokenize(model, text, n_text, buf, cap, true, true)` as a function
of the buffer capacity; `textLen` is `strlen(text)`. -/
def tokenizePrompt (engineCall : Nat → Int) (textLen : Nat) : TokenizeOutcome :=
  let cap := textLen + 32
  let n := engineCall cap
  if n < 0 then .retried (-n).toNat (engineCall (-n).toNat)
  else .firstTry cap n.toNat

/-- Engine boundary model for the autoregressive generation loop of
`nativeGenerate` (lines 178-232).  `sampleAt k` is the token id that the
sampling block (greedy or temperature) produces on the iteration whose
`n_generated` counter equals `k` — an oracle for the engine's logits at
that iteration together with the chosen sampling computation; `isEog`
abstracts `llama_token_is_eog`; `pieceOf` abstracts the text returned by
`token_to_string` for a token; `decodeOk` abstracts the success status of
`llama_decode` on a submitted batch — a status the C code receives and
discards. -/
structure Engine where
  sampleAt : Nat → Nat
  isEog : Nat → Bool
  pieceOf : Nat → String
  decodeOk : List BatchTok → Bool

/-- Local state of the generation loop: the text fragments delivered to
the consumer callback so far, the `n_generated` and `n_cur` counters, and
the trace of single-token batches submitted to `llama_decode` during the
Decoding phase. -/
structure LoopState where
  emitted : List String
  nGenerated : Nat
  nCur : Nat
  submitted : List (List BatchTok)
deriving Repr, DecidableEq

/-- Embeds the loop `while (n_generated < maxTokens) { ... }` of
`nativeGenerate` (lines 183-232).  The fuel is `maxTokens - n_generated`,
so the guard `n_generated < maxTokens` is exactly `fuel > 0`.  One
iteration: sample a token; if `llama_token_is_eog` holds, `break` (the
token is neither converted nor delivered); otherwise convert it to text
and, if the text is non-empty, deliver it to the consumer callback; then
submit the single-token batch `[⟨tok, n_cur, true⟩]` to `llama_decode`
— whose boolean status the C code discards — and increment both
counters. -/
def genLoopGo (eng : Engine) : Nat → LoopState → LoopState
  | 0, st => st
  | fuel + 1, st =>
      let tok := eng.sampleAt st.nGenerated
      if eng.isEog tok then st
      else
        let piece := eng.pieceOf tok
        let emitted' := if piece = "" then st.emitted else st.emitted ++ [piece]
        let batch : List BatchTok := [⟨tok, st.nCur, true⟩]
        let _ := eng.decodeOk batch
        genLoopGo eng fuel
          { emitted := emitted', nGenerated := st.nGenerated + 1,
            nCur := st.nCur + 1, submitted := st.submitted ++ [batch] }

/-- The Decoding phase of `nativeGenerate` as entered after prefill:
`n_generated = 0`, `n_cur = n_tokens` (the prompt length), nothing emitted
or submitted yet. -/
def nativeGenerateLoop (eng : Engine) (maxTokens promptLen : Nat) : LoopState :=
  genLoopGo eng maxTokens ⟨[], 0, promptLen, []⟩

/-- The error taxonomy visible at the JNI entry points: a zero handle
makes `nativeGenerate`/`nativeEmbed` throw
`RuntimeException("Invalid model handle")`, which the spec names
`InvalidHandleError`. -/
inductive JniError where
  | invalidHandle
deriving Repr, DecidableEq

/-- Result of `nativeFreeModel` (lines 102-117): `noop` when
`handle == 0` (early return, nothing touched); `freed` when the live
session's context, model and handle record are released. -/
inductive FreeResult where
  | noop
  | freed
deriving Repr, DecidableEq

/-- Embeds the `nativeGenerate` entry point (lines 121-236) at the level
of its observable behaviour: the list of strings passed to the consumer
callback, paired with the error thrown, if any.  The zero-handle guard
(lines 131-135) runs before any native state is read, hence the result at
`handle = 0` does not depend on the engine or on the arguments. -/
def nativeGenerate (eng : Engine) (handle : Nat) (maxTokens promptLen : Nat) :
    List String × Option JniError :=
  if handle = 0 then ([], some .invalidHandle)
  else ((nativeGenerateLoop eng maxTokens promptLen).emitted, none)

/-- Embeds `nativeFreeModel` (lines 102-117): `if (handle == 0) return;`
makes the zero handle a no-op, not an error; a live handle releases
context then model then the handle record. -/
def nativeFreeModel (handle : Nat) : FreeResult :=
  if handle = 0 then .noop else .freed

/-- The data `nativeEmbed` reads from the engine after prefill
(lines 289-296): the pooled embedding pointer for the final position
(`llama_get_embeddings_ith(ctx, -1)`, `none` when null), the model's
embedding width (`llama_n_embd`, an `int` that may be non-positive), the
final position's output distribution (`llama_get_logits_ith(ctx, -1)`)
and the vocabulary size (`llama_n_vocab`). -/
structure EmbedModel where
  pooled : Option (List Rat)
  n_embd : Int
  n_vocab : Nat
  logits : List Rat
deriving Repr, DecidableEq

/-- Embeds the embedding-extraction tail of `nativeEmbed` (lines 289-305):
`if (!embeddings || n_embd <= 0)` return the first `min(n_vocab, 384)`
entries of the final position's logits; otherwise copy `n_embd` floats
from the pooled embedding pointer (the engine guarantees the pointer
holds `n_embd` values, so with that guarantee the copy is the pooled
vector verbatim). -/
def extractEmbedding (m : EmbedModel) : List Rat :=
  match m.pooled with
  | none => m.logits.take (min m.n_vocab 384)
  | some emb =>
      if m.n_embd ≤ 0 then m.logits.take (min m.n_vocab 384)
      else emb.take m.n_embd.toNat

/-- Embeds the `nativeEmbed` entry point (lines 240-306) at the level of
its observable behaviour: the returned vector (`none` when the call threw)
paired with the error thrown, if any.  The zero-handle guard
(lines 247-251) runs before any native state is read. -/
def nativeEmbed (m : EmbedModel) (handle : Nat) :
    Option (List Rat) × Option JniError :=
  if handle = 0 then (none, some .invalidHandle)
  else (some (extractEmbedding m), none)

/-- Embeds `nativeGetMemoryUsage` (lines 310-322): `if (handle == 0)
return 0;`, otherwise the engine-reported model size
(`llama_model_size(sc->model)`, abstracted as `modelSize`). -/
def nativeGetMemoryUsage (modelSize : Nat) (handle : Nat) : Nat :=
  if handle = 0 then 0 else modelSize

/-- The per-session record allocated by `nativeLoadModel` (line 95):
`new SemblanceContext{model, ctx, contextLength, batchSize}`.  The opaque
`llama_model *` and `llama_context *` pointers are abstract identifiers;
`n_ctx` and `n_batch` are the `jint` parameters as passed. -/
structure SemblanceContext where
  model : Nat
  ctx : Nat
  n_ctx : Int
  n_batch : Int
deriving Repr, DecidableEq

/-- The native state a live session handle reaches: the session record
plus the engine-internal KV cache bound to the session's context,
recorded abstractly as the list of batches decoded since the last
`llama_kv_cache_clear`. -/
structure NativeState where
  sc : SemblanceContext
  kv : List (List BatchTok)
deriving Repr, DecidableEq

/-- The full native-state effect of `nativeGenerate` on a live session:
clear the KV cache (line 163), run the chunked prefill (lines 168-176),
then the generation loop (lines 183-232), whose single-token batches are
also decoded into the KV cache.  The session record `sc` is read
(`sc->n_batch`, `sc->ctx`, `sc->model`) but never written. -/
def nativeGenerateEffect (eng : Engine) (toks : List Nat) (maxTokens : Nat)
    (s : NativeState) : NativeState × LoopState :=
  let pre := prefillBatches s.sc.n_batch.toNat toks 0
  let fin := nativeGenerateLoop eng maxTokens toks.length
  (⟨s.sc, pre ++ fin.submitted⟩, fin)

/-- The full native-state effect of `nativeEmbed` on a live session:
clear the KV cache (line 271), run the chunked prefill (lines 275-284),
then read the embedding (lines 289-305).  The session record is read but
never written. -/
def nativeEmbedEffect (m : EmbedModel) (toks : List Nat)
    (s : NativeState) : NativeState × List Rat :=
  let pre := prefillBatches s.sc.n_batch.toNat toks 0
  (⟨s.sc, pre⟩, extractEmbedding m)

/-- The native-state effect of `nativeGetMemoryUsage` on a live session:
a pure read (`llama_model_size(sc->model)`), no write at all. -/
def nativeGetMemoryUsageEffect (modelSize : Nat) (s : NativeState) :
    NativeState × Nat :=
  (s, modelSize)

/-- The native-state effect of `nativeFreeModel` on a live session
(lines 108-116): `llama_free(ctx)`, `llama_model_free(model)`,
`delete sc` — the state is disposed and no successor state exists. -/
def nativeFreeModelEffect (_ : NativeState) : Option NativeState :=
  none

-- Helper lemmas about the generation loop.

theorem genLoopGo_decode_status_irrelevant (e1 e2 : Engine)
    (h1 : e1.sampleAt = e2.sampleAt) (h2 : e1.isEog = e2.isEog)
    (h3 : e1.pieceOf = e2.pieceOf) :
    ∀ fuel st, genLoopGo e1 fuel st = genLoopGo e2 fuel st := by
  intro fuel
  induction fuel with
  | zero => intro st; rfl
  | succ fuel ih =>
    intro st
    simp only [genLoopGo, h1, h2, h3]
    by_cases heog : e2.isEog (e2.sampleAt st.nGenerated) = true
    · simp [heog]
    · simp only [Bool.not_eq_true] at heog
      simp [heog, ih]

theorem genLoopGo_emitted_extends (eng : Engine) :
    ∀ fuel st, ∃ rest, (genLoopGo eng fuel st).emitted = st.emitted ++ rest := by
  intro fuel
  induction fuel with
  | zero => intro st; exact ⟨[], by simp [genLoopGo]⟩
  | succ fuel ih =>
    intro st
    simp only [genLoopGo]
    by_cases heog : eng.isEog (eng.sampleAt st.nGenerated) = true
    · exact ⟨[], by simp [heog]⟩
    · simp only [Bool.not_eq_true] at heog
      simp only [heog, Bool.false_eq_true, if_false]
      by_cases hp : eng.pieceOf (eng.sampleAt st.nGenerated) = ""
      · obtain ⟨rest, hrest⟩ := ih
          ⟨st.emitted, st.nGenerated + 1, st.nCur + 1,
            st.submitted ++ [[⟨eng.sampleAt st.nGenerated, st.nCur, true⟩]]⟩
        exact ⟨rest, by simp [hp, hrest]⟩
      · obtain ⟨rest, hrest⟩ := ih
          ⟨st.emitted ++ [eng.pieceOf (eng.sampleAt st.nGenerated)],
            st.nGenerated + 1, st.nCur + 1,
            st.submitted ++ [[⟨eng.sampleAt st.nGenerated, st.nCur, true⟩]]⟩
        exact ⟨eng.pieceOf (eng.sampleAt st.nGenerated) :: rest,
          by simp [hp, hrest]⟩

theorem genLoopGo_count_no_eog (eng : Engine) :
    ∀ fuel st,
      (∀ k, st.nGenerated ≤ k → k < st.nGenerated + fuel →
        eng.isEog (eng.sampleAt k) = false) →
      (genLoopGo eng fuel st).nGenerated = st.nGenerated + fuel := by
  intro fuel
  induction fuel with
  | zero => intro st _; rfl
  | succ fuel ih =>
    intro st h
    have heog : eng.isEog (eng.sampleAt st.nGenerated) = false :=
      h st.nGenerated le_rfl (by omega)
    simp only [genLoopGo, heog, Bool.false_eq_true, if_false]
    have hrec := ih
      ⟨if eng.pieceOf (eng.sampleAt st.nGenerated) = "" then st.emitted
          else st.emitted ++ [eng.pieceOf (eng.sampleAt st.nGenerated)],
        st.nGenerated + 1, st.nCur + 1,
        st.submitted ++ [[⟨eng.sampleAt st.nGenerated, st.nCur, true⟩]]⟩
      (by intro k hk1 hk2; dsimp only at hk1 hk2; exact h k (by omega) (by omega))
    simp only at hrec
    rw [hrec]
    omega

theorem genLoopGo_count_le_eog (eng : Engine) :
    ∀ fuel st k, st.nGenerated ≤ k → k < st.nGenerated + fuel →
      eng.isEog (eng.sampleAt k) = true →
      (genLoopGo eng fuel st).nGenerated ≤ k := by
  intro fuel
  induction fuel with
  | zero => intro st k hk1 hk2 _; omega
  | succ fuel ih =>
    intro st k hk1 hk2 hk3
    by_cases heog : eng.isEog (eng.sampleAt st.nGenerated) = true
    · simp only [genLoopGo, heog, if_true]
      exact hk1
    · simp only [Bool.not_eq_true] at heog
      have hne : st.nGenerated ≠ k := by
        intro hcontra
        rw [hcontra] at heog
        rw [heog] at hk3
        exact Bool.false_ne_true hk3
      simp only [genLoopGo, heog, Bool.false_eq_true, if_false]
      exact ih _ k (by dsimp only; omega) (by dsimp only; omega) hk3

theorem genLoopGo_emitted_sources (eng : Engine) :
    ∀ fuel st,
      (∀ s ∈ st.emitted, s ≠ "" ∧
        ∃ k, eng.isEog (eng.sampleAt k) = false ∧ s = eng.pieceOf (eng.sampleAt k)) →
      ∀ s ∈ (genLoopGo eng fuel st).emitted, s ≠ "" ∧
        ∃ k, eng.isEog (eng.sampleAt k) = false ∧ s = eng.pieceOf (eng.sampleAt k) := by
  intro fuel
  induction fuel with
  | zero => intro st h; exact h
  | succ fuel ih =>
    intro st h
    by_cases heog : eng.isEog (eng.sampleAt st.nGenerated) = true
    · simp only [genLoopGo, heog, if_true]
      exact h
    · simp only [Bool.not_eq_true] at heog
      simp only [genLoopGo, heog, Bool.false_eq_true, if_false]
      apply ih
      intro s hs
      by_cases hp : eng.pieceOf (eng.sampleAt st.nGenerated) = ""
      · simp only [hp, if_true] at hs
        exact h s hs
      · simp only [hp, if_false, List.mem_append, List.mem_singleton] at hs
        rcases hs with hs | hs
        · exact h s hs
        · subst hs
          exact ⟨hp, st.nGenerated, heog, rfl⟩

-- Concrete engines and models used by counterexamples and witnesses.

/-- Engine whose sampler always produces token 7, never an
end-of-generation token, rendering as the fragment "x", and whose decode
primitive reports failure for every submitted batch. -/
def engDecodeFail : Engine :=
  ⟨fun _ => 7, fun _ => false, fun _ => "x", fun _ => false⟩

/-- Same sampling behaviour as `engDecodeFail`, but every decode
succeeds. -/
def engDecodeOkAll : Engine :=
  ⟨fun _ => 7, fun _ => false, fun _ => "x", fun _ => true⟩

/-- Engine whose sampler always produces token 9, which is an
end-of-generation token. -/
def engEogAt0 : Engine :=
  ⟨fun _ => 9, fun t => t == 9, fun _ => "y", fun _ => true⟩

/-- Model with no pooled-embedding support (null pointer, zero width) and
a five-entry vocabulary. -/
def embedFallbackModel : EmbedModel :=
  ⟨none, 0, 5, [1, 2, 3, 4, 5]⟩

/-- A live session state: opaque model/context ids, `contextLength = 2048`,
`batchSize = 512`, empty KV cache. -/
def sessionExample : NativeState :=
  ⟨⟨1, 2, 2048, 512⟩, []⟩

-- ─── Claim theorems ──────────────────────────────────────────────────

/-- C1 (counterexample): with a two-token prompt and `batch_capacity = 1`
the prefill issues two chunks, and the EARLIER chunk also requests output
computation at its (single, last) position — refuting the claim that no
position in any earlier chunk requests output computation.  The source
sets `batch.logits[batch.n_tokens - 1] = true` inside the per-chunk loop,
i.e. once per chunk, not once per prefill. -/
theorem prefill_earlier_chunk_requests_output :
    ¬ (∀ c ∈ (prefillBatches 1 [5, 6] 0).dropLast, ∀ b ∈ c, b.logits = false) := by
  decide

/-- C1 (amended): for every prompt and every `batch_capacity ≥ 1`, the
batch prefill marks the compute-output flag true for exactly the last
token of EVERY chunk: within each chunk all positions before the last
carry the flag false and the last position carries it true — in
particular the last token of the last chunk requests output, but so does
the last token of each earlier chunk. -/
theorem prefill_marks_last_of_each_chunk (B : Nat) (hB : 1 ≤ B)
    (toks : List Nat) (start : Nat) :
    ∀ c ∈ prefillBatches B toks start,
      c.map BatchTok.logits = List.replicate (c.length - 1) false ++ [true] := by
  intro c hc
  obtain ⟨l, p, hne, hlen, rfl⟩ :=
    prefillGo_chunks B hB toks.length toks start le_rfl c hc
  have hne' : mkChunk l p ≠ [] := by
    intro h0
    apply hne
    have hl := mkChunk_length l p
    rw [h0] at hl
    exact List.eq_nil_of_length_eq_zero hl.symm
  rw [markLast_map_logits _ hne', mkChunk_map_logits, dropLast_replicate_false,
    markLast_length, mkChunk_length]

/-- C1 (witness for the amended theorem): the first chunk of the
two-chunk prefill above has the stated flag pattern. -/
theorem prefill_marks_last_of_each_chunk_witness :
    ([(⟨5, 0, true⟩ : BatchTok)]).map BatchTok.logits =
      List.replicate (([(⟨5, 0, true⟩ : BatchTok)]).length - 1) false ++ [true] :=
  prefill_marks_last_of_each_chunk 1 (by decide) [5, 6] 0 [⟨5, 0, true⟩] (by decide)

/-- C2 (code bug, evaluation at the failing input): with output
distribution `[0, 1]` (vocabulary of size 2) and temperature 1, the
temperature branch of `nativeGenerate` returns token 0 — the first entry
of the candidate array, which the temperature sampler rescales in place
but never reorders — while the index whose value is highest after
rescaling (what the claim, and the source's own comment "Pick highest
probability after temperature", require) is 1. -/
theorem temperature_branch_takes_first_candidate :
    sampleTemperatureToken [0, 1] 1 = 0 ∧ specTempArgmax [0, 1] 1 = 1 ∧
      sampleTemperatureToken [0, 1] 1 ≠ specTempArgmax [0, 1] 1 := by
  have h1 : sampleTemperatureToken [0, 1] 1 = 0 := by decide
  have h2 : specTempArgmax [0, 1] 1 = 1 := by
    norm_num [specTempArgmax, idxOfMax, scanMax]
  exact ⟨h1, h2, by rw [h1, h2]; decide⟩

/-- C3 (counterexample): an engine that rejects EVERY decode submission
during Decoding does not make the loop abort: with `maxTokens = 3` the
loop still runs all three iterations, delivers all three fragments, and
the entry point reports no error — identical behaviour to an engine whose
decodes all succeed.  The source discards the return value of
`llama_decode` at line 228, so no DecodeError exists to surface. -/
theorem decode_failure_invisible :
    nativeGenerateLoop engDecodeFail 3 5 = nativeGenerateLoop engDecodeOkAll 3 5
    ∧ (nativeGenerateLoop engDecodeFail 3 5).emitted = ["x", "x", "x"]
    ∧ (nativeGenerateLoop engDecodeFail 3 5).nGenerated = 3
    ∧ nativeGenerate engDecodeFail 1 3 5 = (["x", "x", "x"], none) := by
  refine ⟨by decide, by decide, by decide, ?_⟩
  have h1 : (1 : Nat) ≠ 0 := by decide
  simp only [nativeGenerate, h1, if_false]
  decide

/-- C3 (amended): the Decoding phase never inspects the engine's decode
status — two engines that differ only in decode status produce identical
loop results, a live-handle call surfaces no error at all, and text
fragments already delivered to the consumer are never retracted (the
final emitted list extends the initial one). -/
theorem decode_status_ignored (e1 e2 : Engine) (h1 : e1.sampleAt = e2.sampleAt)
    (h2 : e1.isEog = e2.isEog) (h3 : e1.pieceOf = e2.pieceOf)
    (fuel : Nat) (st : LoopState) :
    genLoopGo e1 fuel st = genLoopGo e2 fuel st
    ∧ (∃ rest, (genLoopGo e1 fuel st).emitted = st.emitted ++ rest)
    ∧ ∀ handle maxTokens promptLen, handle ≠ 0 →
        (nativeGenerate e1 handle maxTokens promptLen).2 = none := by
  refine ⟨genLoopGo_decode_status_irrelevant e1 e2 h1 h2 h3 fuel st,
    genLoopGo_emitted_extends e1 fuel st, ?_⟩
  intro handle maxTokens promptLen hh
  simp [nativeGenerate, hh]

/-- C3 (witness for the amended theorem): the loop result is identical
under all-failing and all-succeeding decode status. -/
theorem decode_status_ignored_witness :
    genLoopGo engDecodeFail 2 ⟨[], 0, 0, []⟩ = genLoopGo engDecodeOkAll 2 ⟨[], 0, 0, []⟩ :=
  (decode_status_ignored engDecodeFail engDecodeOkAll rfl rfl rfl 2 ⟨[], 0, 0, []⟩).1

/-- C4 (counterexample): when the engine reports a required size of 300,
`token_to_string` reallocates its retry buffer to 301 bytes
(`static_cast<size_t>(-n) + 1`), not exactly the required magnitude 300;
and when the retry fails as well, the call returns the empty string — no
TokenizationError is signalled. -/
theorem token_buffer_retry_oversizes :
    token_to_string (fun cap => if cap < 300 then -300 else 300) = .fromHeap 301 300
    ∧ token_to_string (fun _ => -300) = .emptyFallback := by
  exact ⟨by decide, by decide⟩

/-- C4 (amended): when the engine reports insufficient capacity as a
negative count of magnitude `R`, the text-to-tokens path reallocates to
exactly `R` and retries exactly once, using the second count without any
check (a second failure is the raw negative count fed onward, not a
signalled TokenizationError), while the token-to-text path reallocates to
`R + 1` — the magnitude plus one — and retries exactly once, a second
failure yielding the empty string rather than an error. -/
theorem token_buffer_retry_behaviour (f g : Nat → Int) (L R : Nat) (hR : 0 < R)
    (hf : f (L + 32) = -(R : Int)) (hg : g 256 = -(R : Int)) :
    tokenizePrompt f L = .retried R (f R)
    ∧ token_to_string g =
        (if 0 < g (R + 1) then .fromHeap (R + 1) (g (R + 1)).toNat
          else .emptyFallback) := by
  constructor
  · simp only [tokenizePrompt]
    rw [hf]
    have hneg : (-(R : Int)) < 0 := by omega
    simp [hneg]
  · simp only [token_to_string]
    rw [hg]
    have hneg : (-(R : Int)) < 0 := by omega
    simp [hneg]

/-- C4 (witness for the amended theorem): an engine that always reports a
required size of 300 makes the tokenize path retry at capacity exactly
300 (and feed the still-negative count onward). -/
theorem token_buffer_retry_behaviour_witness :
    tokenizePrompt (fun _ => -300) 5 = .retried 300 (-300) :=
  (token_buffer_retry_behaviour (fun _ => -300) (fun _ => -300) 5 300
    (by decide) (by decide) (by decide)).1

/-- C5: for every prompt of token length `L` and every `batch_capacity
B ≥ 1`, the batch prefill issues exactly `⌈L / B⌉ = (L + B - 1) / B`
decode submissions, each containing at most `B` tokens, and the absolute
token positions across all submissions, in submission order, are exactly
`0, 1, ..., L - 1` — strictly increasing within and across
submissions. -/
theorem prefill_chunk_schedule (B : Nat) (hB : 1 ≤ B) (toks : List Nat) :
    (prefillBatches B toks 0).length = (toks.length + B - 1) / B
    ∧ (∀ c ∈ prefillBatches B toks 0, c.length ≤ B)
    ∧ (prefillBatches B toks 0).flatten.map BatchTok.pos = List.range toks.length
    ∧ ((prefillBatches B toks 0).flatten.map BatchTok.pos).Pairwise (· < ·) := by
  have hpos : (prefillBatches B toks 0).flatten.map BatchTok.pos =
      List.range' 0 toks.length :=
    prefillGo_positions B hB toks.length toks 0 le_rfl
  refine ⟨prefillGo_count B hB toks.length toks 0 le_rfl, ?_, ?_, ?_⟩
  · intro c hc
    obtain ⟨l, p, hne, hlen, rfl⟩ :=
      prefillGo_chunks B hB toks.length toks 0 le_rfl c hc
    rw [markLast_length, mkChunk_length]
    exact hlen
  · rw [hpos, List.range_eq_range']
  · rw [hpos, ← List.range_eq_range']
    exact List.pairwise_lt_range toks.length

/-- C5 (witness): three tokens with `batch_capacity = 2` yield two
submissions covering positions 0, 1, 2 in order. -/
theorem prefill_chunk_schedule_witness :
    (prefillBatches 2 [10, 11, 12] 0).length = (3 + 2 - 1) / 2
    ∧ (∀ c ∈ prefillBatches 2 [10, 11, 12] 0, c.length ≤ 2)
    ∧ (prefillBatches 2 [10, 11, 12] 0).flatten.map BatchTok.pos = List.range 3
    ∧ ((prefillBatches 2 [10, 11, 12] 0).flatten.map BatchTok.pos).Pairwise (· < ·) := by
  have h := prefill_chunk_schedule 2 (by decide) [10, 11, 12]
  simpa using h

/-- C6: for every engine behaviour, `maxTokens` limit and prompt length,
if no step below `maxTokens` samples an end-of-generation token the loop
stops with `n_generated` exactly `maxTokens`; if some step below
`maxTokens` samples an end-of-generation token the loop stops with
`n_generated` strictly less than `maxTokens`. -/
theorem generate_stop_conditions (eng : Engine) (maxTokens promptLen : Nat) :
    ((∀ k, k < maxTokens → eng.isEog (eng.sampleAt k) = false) →
      (nativeGenerateLoop eng maxTokens promptLen).nGenerated = maxTokens)
    ∧ (∀ k, k < maxTokens → eng.isEog (eng.sampleAt k) = true →
        (nativeGenerateLoop eng maxTokens promptLen).nGenerated < maxTokens) := by
  constructor
  · intro h
    have := genLoopGo_count_no_eog eng maxTokens ⟨[], 0, promptLen, []⟩
      (by intro k hk1 hk2; dsimp only at hk2; exact h k (by omega))
    simpa [nativeGenerateLoop] using this
  · intro k hk hkeog
    have := genLoopGo_count_le_eog eng maxTokens ⟨[], 0, promptLen, []⟩ k
      (by dsimp only; omega) (by dsimp only; omega) hkeog
    have hle : (nativeGenerateLoop eng maxTokens promptLen).nGenerated ≤ k := this
    omega

/-- C6 (witness): a never-EOG engine runs exactly 3 of 3 steps; an
engine that samples an end-of-generation token at step 0 stops short of
3. -/
theorem generate_stop_conditions_witness :
    (nativeGenerateLoop engDecodeFail 3 5).nGenerated = 3
    ∧ (nativeGenerateLoop engEogAt0 3 5).nGenerated < 3 :=
  ⟨(generate_stop_conditions engDecodeFail 3 5).1 (fun _ _ => rfl),
    (generate_stop_conditions engEogAt0 3 5).2 0 (by decide) rfl⟩

/-- C7: in every execution of the generation loop, every text fragment
delivered to the consumer is non-empty and is the rendering of a sampled
token that is NOT an end-of-generation token: sampling an
end-of-generation token breaks out of the loop before the conversion and
delivery steps, so its text is never streamed. -/
theorem eog_never_emitted (eng : Engine) (maxTokens promptLen : Nat) :
    ∀ s ∈ (nativeGenerateLoop eng maxTokens promptLen).emitted, s ≠ "" ∧
      ∃ k, eng.isEog (eng.sampleAt k) = false ∧ s = eng.pieceOf (eng.sampleAt k) := by
  exact genLoopGo_emitted_sources eng maxTokens ⟨[], 0, promptLen, []⟩
    (by intro s hs; simp at hs)

/-- C7 (witness): the fragment "x" delivered by the concrete engine is
non-empty and renders a non-EOG token. -/
theorem eog_never_emitted_witness :
    "x" ≠ "" ∧ ∃ k, engDecodeFail.isEog (engDecodeFail.sampleAt k) = false
      ∧ "x" = engDecodeFail.pieceOf (engDecodeFail.sampleAt k) :=
  eog_never_emitted engDecodeFail 3 5 "x" (by decide)

/-- C8: every caller-facing operation invoked with `handle = 0` fails
fast before touching any native state: `nativeGenerate` and `nativeEmbed`
throw the invalid-handle error with the consumer invoked zero times and
no vector returned — whatever the engine, model or arguments —
`nativeFreeModel` is a no-op rather than an error, and
`nativeGetMemoryUsage` returns 0 whatever the model size. -/
theorem zero_handle_fails_fast :
    (∀ eng maxTokens promptLen,
        nativeGenerate eng 0 maxTokens promptLen = ([], some .invalidHandle))
    ∧ (∀ m, nativeEmbed m 0 = (none, some .invalidHandle))
    ∧ nativeFreeModel 0 = .noop
    ∧ (∀ modelSize, nativeGetMemoryUsage modelSize 0 = 0) :=
  ⟨fun _ _ _ => rfl, fun _ => rfl, rfl, fun _ => rfl⟩

/-- C9: on a live session, if the loaded model exposes no pooled
embedding (null pointer or non-positive width) the embedding extractor
returns a copy of the first `min(vocabulary_size, 384)` entries of the
final position's output distribution — a vector of exactly that length;
if a pooled embedding of the model's width is available it is returned
verbatim, with length exactly that width.  The length facts use the
engine guarantees that the logits array has `n_vocab` entries and the
pooled array `n_embd` entries. -/
theorem embed_vector_shape (m : EmbedModel) (hlog : m.logits.length = m.n_vocab) :
    ((m.pooled = none ∨ m.n_embd ≤ 0) →
        extractEmbedding m = m.logits.take (min m.n_vocab 384)
        ∧ (extractEmbedding m).length = min m.n_vocab 384)
    ∧ (∀ emb, m.pooled = some emb → 0 < m.n_embd → emb.length = m.n_embd.toNat →
        extractEmbedding m = emb
        ∧ (extractEmbedding m).length = m.n_embd.toNat) := by
  constructor
  · intro hcase
    have hres : extractEmbedding m = m.logits.take (min m.n_vocab 384) := by
      rcases hcase with hnone | hle
      · simp [extractEmbedding, hnone]
      · cases hp : m.pooled with
        | none => simp [extractEmbedding, hp]
        | some emb => simp [extractEmbedding, hp, if_pos hle]
    refine ⟨hres, ?_⟩
    rw [hres, List.length_take, hlog]
    omega
  · intro emb hp hpos hlen
    have hres : extractEmbedding m = emb := by
      have hne : ¬ m.n_embd ≤ 0 := by omega
      simp [extractEmbedding, hp, hne, ← hlen]
    exact ⟨hres, by rw [hres, hlen]⟩

/-- C9 (witness): the fallback model with a five-entry vocabulary yields
the first `min(5, 384) = 5` logits. -/
theorem embed_vector_shape_witness :
    extractEmbedding embedFallbackModel
        = embedFallbackModel.logits.take (min embedFallbackModel.n_vocab 384)
    ∧ (extractEmbedding embedFallbackModel).length
        = min embedFallbackModel.n_vocab 384 :=
  (embed_vector_shape embedFallbackModel rfl).1 (Or.inl rfl)

/-- C10: on a live session, the fields fixed at creation — the model and
context references and the `n_ctx`/`n_batch` parameters — are never
modified by `nativeGenerate`, `nativeEmbed` or `nativeGetMemoryUsage`
(only the engine-internal KV cache changes); only `nativeFreeModel`
disposes the state; hence the load-time invariant
`context_length ≥ 1 ∧ batch_capacity ≥ 1` holds unchanged after any of
these operations. -/
theorem session_fields_frame (eng : Engine) (m : EmbedModel) (toks : List Nat)
    (maxTokens modelSize : Nat) (s : NativeState)
    (hctx : 1 ≤ s.sc.n_ctx) (hbatch : 1 ≤ s.sc.n_batch) :
    (nativeGenerateEffect eng toks maxTokens s).1.sc = s.sc
    ∧ (nativeEmbedEffect m toks s).1.sc = s.sc
    ∧ (nativeGetMemoryUsageEffect modelSize s).1 = s
    ∧ nativeFreeModelEffect s = none
    ∧ (1 ≤ (nativeGenerateEffect eng toks maxTokens s).1.sc.n_ctx
        ∧ 1 ≤ (nativeGenerateEffect eng toks maxTokens s).1.sc.n_batch)
    ∧ (1 ≤ (nativeEmbedEffect m toks s).1.sc.n_ctx
        ∧ 1 ≤ (nativeEmbedEffect m toks s).1.sc.n_batch) :=
  ⟨rfl, rfl, rfl, rfl, ⟨hctx, hbatch⟩, ⟨hctx, hbatch⟩⟩

/-- C10 (witness): the concrete live session keeps its record across a
generate call. -/
theorem session_fields_frame_witness :
    (nativeGenerateEffect engDecodeFail [3, 4] 2 sessionExample).1.sc
      = sessionExample.sc :=
  (session_fields_frame engDecodeFail embedFallbackModel [3, 4] 2 100
    sessionExample (by decide) (by decide)).1
